import Mathlib

/-!
Verification of the btc-script-builder core: the script compiler, UTXO
selector, funding transaction builder, unlock transaction builder and the
tracked-script registry, shallowly embedded from the TypeScript sources
(`src/lib/scriptUtils.ts` and the unnamed page components).  External
collaborators (chain queries, the wallet signer, broadcast) are modelled as
explicit environments; machine arithmetic on satoshi amounts uses `Int`
where the JavaScript code can go negative and `Nat` elsewhere.
-/

namespace BtcScriptBuilder

/-- An unspent transaction output as returned by the explorer API:
`{ txid, vout, value }` with the value in satoshis. -/
structure Utxo where
  txid : String
  vout : Nat
  value : Nat
deriving DecidableEq, Repr

/-- Total satoshi value of a list of UTXOs
(`utxos.reduce((sum, utxo) => sum + utxo.value, 0)` in the source). -/
def sumVal (l : List Utxo) : Nat := (l.map (·.value)).sum

/-- One step of the descending insertion used to model the JavaScript
`[...utxos].sort((a, b) => b.value - a.value)`: insert `u` before the first
strictly smaller element, so equal values keep their original order exactly
as the engine's stable sort does. -/
def insertDesc (u : Utxo) : List Utxo → List Utxo
  | [] => [u]
  | v :: rest => if v.value < u.value then u :: v :: rest else v :: insertDesc u rest

/-- The UTXO list sorted by value in descending order (stable). -/
def sortUtxos (l : List Utxo) : List Utxo := l.foldr insertDesc []

/-- Result record of the selector: `{ selectedUtxos, totalValue }`. -/
structure SelectResult where
  selectedUtxos : List Utxo
  totalValue : Nat
deriving DecidableEq, Repr

/-- The accumulation loop of `selectUtxos`: starting from the running total
`tv`, walk the (sorted) list, stopping as soon as the total reaches the
target, otherwise taking the next UTXO and adding its value. -/
def selectGo (target : Nat) : List Utxo → Nat → List Utxo × Nat
  | [], tv => ([], tv)
  | u :: rest, tv =>
    if target ≤ tv then ([], tv)
    else
      let p := selectGo target rest (tv + u.value)
      (u :: p.1, p.2)

/-- `selectUtxos(utxos, targetAmount)` from `src/lib/scriptUtils.ts` /
`part_005`: sort descending, accumulate until the running total reaches the
target, and fail when even the whole list falls short. -/
def selectUtxos (utxos : List Utxo) (targetAmount : Nat) : Except String SelectResult :=
  if (selectGo targetAmount (sortUtxos utxos) 0).2 < targetAmount then
    .error "Insufficient UTXOs to cover the target amount"
  else
    .ok ⟨(selectGo targetAmount (sortUtxos utxos) 0).1, (selectGo targetAmount (sortUtxos utxos) 0).2⟩

theorem insertDesc_perm (u : Utxo) (l : List Utxo) : List.Perm (insertDesc u l) (u :: l) := by
  induction l with
  | nil => rfl
  | cons v rest ih =>
    unfold insertDesc
    split
    · exact List.Perm.refl _
    · exact (List.Perm.cons v ih).trans (List.Perm.swap u v rest)

theorem sortUtxos_perm (l : List Utxo) : List.Perm (sortUtxos l) l := by
  induction l with
  | nil => rfl
  | cons u rest ih =>
    exact (insertDesc_perm u (sortUtxos rest)).trans (List.Perm.cons u ih)

theorem insertDesc_pairwise (u : Utxo) (l : List Utxo)
    (h : List.Pairwise (fun a b => b.value ≤ a.value) l) :
    List.Pairwise (fun a b => b.value ≤ a.value) (insertDesc u l) := by
  induction l with
  | nil => simp [insertDesc]
  | cons v rest ih =>
    unfold insertDesc
    rcases h with - | ⟨hv, hrest⟩
    split
    · rename_i hlt
      refine List.Pairwise.cons ?_ (List.Pairwise.cons hv hrest)
      intro b hb
      rcases List.mem_cons.mp hb with hb | hb
      · exact hb ▸ Nat.le_of_lt hlt
      · exact Nat.le_trans (hv b hb) (Nat.le_of_lt hlt)
    · rename_i hge
      refine List.Pairwise.cons ?_ (ih hrest)
      intro b hb
      have := (insertDesc_perm u rest).mem_iff.mp hb
      rcases List.mem_cons.mp this with hb' | hb'
      · exact hb' ▸ Nat.le_of_not_lt hge
      · exact hv b hb'

theorem sortUtxos_pairwise (l : List Utxo) :
    List.Pairwise (fun a b => b.value ≤ a.value) (sortUtxos l) := by
  induction l with
  | nil => exact List.Pairwise.nil
  | cons u rest ih => exact insertDesc_pairwise u (sortUtxos rest) ih

theorem selectGo_isPrefix (target : Nat) (l : List Utxo) (tv : Nat) :
    (selectGo target l tv).1 <+: l := by
  induction l generalizing tv with
  | nil => simp [selectGo]
  | cons u rest ih =>
    unfold selectGo
    split
    · exact List.nil_prefix
    · obtain ⟨t, ht⟩ := ih (tv + u.value)
      exact ⟨t, by simp [ht]⟩

theorem selectGo_total (target : Nat) (l : List Utxo) (tv : Nat) :
    (selectGo target l tv).2 = tv + sumVal (selectGo target l tv).1 := by
  induction l generalizing tv with
  | nil => simp [selectGo, sumVal]
  | cons u rest ih =>
    unfold selectGo
    split
    · simp [sumVal]
    · simpa [sumVal, Nat.add_assoc] using ih (tv + u.value)

theorem selectGo_reaches (target : Nat) (l : List Utxo) (tv : Nat) :
    target ≤ (selectGo target l tv).2 ∨ (selectGo target l tv).1 = l := by
  induction l generalizing tv with
  | nil => right; simp [selectGo]
  | cons u rest ih =>
    unfold selectGo
    split
    · left; assumption
    · rcases ih (tv + u.value) with h | h
      · left; exact h
      · right; simpa using h

theorem selectGo_minimal (target : Nat) (l : List Utxo) (tv : Nat) :
    ∀ m, m < (selectGo target l tv).1.length → tv + sumVal (l.take m) < target := by
  induction l generalizing tv with
  | nil => intro m hm; simp [selectGo] at hm
  | cons u rest ih =>
    intro m hm
    unfold selectGo at hm
    split at hm
    · simp at hm
    · rename_i hlt
      match m with
      | 0 => simpa [sumVal] using Nat.lt_of_not_le hlt
      | m + 1 =>
        simp only [List.length_cons, Nat.add_lt_add_iff_right] at hm
        have := ih (tv + u.value) m hm
        simpa [sumVal, Nat.add_assoc] using this

/-- C3: for every UTXO list and every target reachable by its total value,
the selector succeeds and returns exactly the shortest prefix of the
descending-sorted list whose running total first reaches the target; the
returned `totalValue` is the sum of the selected UTXOs and is at least the
target, every strictly shorter prefix sums below the target, and the sorted
list is a descending permutation of the input. -/
theorem selectUtxos_shortest_reaching_prefix (utxos : List Utxo) (target : Nat)
    (h : target ≤ sumVal utxos) :
    ∃ r, selectUtxos utxos target = .ok r ∧
      r.selectedUtxos <+: sortUtxos utxos ∧
      r.totalValue = sumVal r.selectedUtxos ∧
      target ≤ r.totalValue ∧
      (∀ m, m < r.selectedUtxos.length → sumVal ((sortUtxos utxos).take m) < target) ∧
      List.Pairwise (fun a b => b.value ≤ a.value) (sortUtxos utxos) ∧
      List.Perm (sortUtxos utxos) utxos := by
  have hsum : sumVal (sortUtxos utxos) = sumVal utxos := by
    unfold sumVal
    exact ((sortUtxos_perm utxos).map fun u => u.value).sum_eq
  have hreach : target ≤ (selectGo target (sortUtxos utxos) 0).2 := by
    rcases selectGo_reaches target (sortUtxos utxos) 0 with h' | h'
    · exact h'
    · rw [selectGo_total, h', hsum]
      simpa using h
  refine ⟨⟨(selectGo target (sortUtxos utxos) 0).1, (selectGo target (sortUtxos utxos) 0).2⟩,
    ?_, selectGo_isPrefix _ _ _, by simpa using selectGo_total target (sortUtxos utxos) 0,
    hreach, ?_, sortUtxos_pairwise utxos, sortUtxos_perm utxos⟩
  · unfold selectUtxos
    rw [if_neg (Nat.not_lt.mpr hreach)]
  · intro m hm
    simpa using selectGo_minimal target (sortUtxos utxos) 0 m hm

/-- Witness for C3 at the spec's own example: values `[500, 300, 200, 100]`
with target `450` select exactly `[500]` with total `500`. -/
theorem selectUtxos_shortest_reaching_prefix_witness :
    ∃ r, selectUtxos [⟨"a", 0, 500⟩, ⟨"b", 1, 300⟩, ⟨"c", 2, 200⟩, ⟨"d", 3, 100⟩] 450 = .ok r ∧
      r.selectedUtxos <+: sortUtxos [⟨"a", 0, 500⟩, ⟨"b", 1, 300⟩, ⟨"c", 2, 200⟩, ⟨"d", 3, 100⟩] ∧
      r.totalValue = sumVal r.selectedUtxos ∧
      450 ≤ r.totalValue ∧
      (∀ m, m < r.selectedUtxos.length →
        sumVal ((sortUtxos [⟨"a", 0, 500⟩, ⟨"b", 1, 300⟩, ⟨"c", 2, 200⟩, ⟨"d", 3, 100⟩]).take m) < 450) ∧
      List.Pairwise (fun a b => b.value ≤ a.value)
        (sortUtxos [⟨"a", 0, 500⟩, ⟨"b", 1, 300⟩, ⟨"c", 2, 200⟩, ⟨"d", 3, 100⟩]) ∧
      List.Perm (sortUtxos [⟨"a", 0, 500⟩, ⟨"b", 1, 300⟩, ⟨"c", 2, 200⟩, ⟨"d", 3, 100⟩])
        [⟨"a", 0, 500⟩, ⟨"b", 1, 300⟩, ⟨"c", 2, 200⟩, ⟨"d", 3, 100⟩] :=
  selectUtxos_shortest_reaching_prefix
    [⟨"a", 0, 500⟩, ⟨"b", 1, 300⟩, ⟨"c", 2, 200⟩, ⟨"d", 3, 100⟩] 450 (by decide)

/-- Concrete check that the selector picks `[500]`, not `[300, 200]`, on the
spec's minimality example. -/
theorem selectUtxos_example_takes_largest :
    selectUtxos [⟨"a", 0, 500⟩, ⟨"b", 1, 300⟩, ⟨"c", 2, 200⟩, ⟨"d", 3, 100⟩] 450 =
      .ok ⟨[⟨"a", 0, 500⟩], 500⟩ := rfl

/-! ## Unlock fee policy

Embeds the fee / sponsorship arithmetic of `unlockScript` (`part_008`).
Satoshi arithmetic is over `Int`, because the JavaScript expressions
(`singleUtxoValue - actualMinFee`, wallet change, shortfalls) can go
negative.  Each wallet UTXO is paired with a `Bool` describing whether the
explorer fetch of its previous transaction succeeds; the source `continue`s
past a UTXO whose fetch fails. -/

/-- Conservative fee estimate of the unlock flow (`estimatedFee = 1500`). -/
def estimatedUnlockFee : Int := 1500

/-- Minimum network relay fee (`minRelayFee = 300`). -/
def minRelayFee : Int := 300

/-- Dust threshold used in all output checks (`546`). -/
def dustLimit : Int := 546

/-- `actualMinFee = Math.max(estimatedFee, minRelayFee)`. -/
def actualMinFee : Int := max estimatedUnlockFee minRelayFee

/-- Wallet-sponsorship accumulation loop: breaks once the accumulated wallet
value `wn` reaches the shortfall, skips UTXOs whose transaction fetch fails,
and otherwise adds the UTXO both to the total input and to the accumulated
wallet value.  Returns the final `(totalInput, walletUtxosNeeded)`. -/
def sponsorLoop (shortfall : Int) : List (Utxo × Bool) → Int → Int → Int × Int
  | [], totalInput, wn => (totalInput, wn)
  | (u, fetchOk) :: rest, totalInput, wn =>
    if shortfall ≤ wn then (totalInput, wn)
    else if fetchOk then sponsorLoop shortfall rest (totalInput + u.value) (wn + u.value)
    else sponsorLoop shortfall rest totalInput wn

/-- Sum of the wallet UTXO values whose transaction fetch succeeds. -/
def fetchOkSum : List (Utxo × Bool) → Int
  | [] => 0
  | (u, fetchOk) :: rest => (if fetchOk then (u.value : Int) else 0) + fetchOkSum rest

/-- Outcome of assembling an unlock transaction: the single wallet output,
the total input value, and how much wallet value was pulled in. -/
structure UnlockOutcome where
  finalOutput : Int
  totalInput : Int
  walletUsed : Int
deriving DecidableEq, Repr

/-- The `finalOutput` computation of the primary path: with wallet
sponsorship (`walletUtxosNeeded > 0`) the full script value plus any
non-negative wallet change is returned; otherwise the fee is deducted from
the script value. -/
def unlockOutputValue (v totalInput walletUsed : Int) : Int :=
  if 0 < walletUsed then v + max 0 (totalInput - v - actualMinFee) else v - actualMinFee

/-- Final output computation followed by the pre-broadcast dust and
relay-fee checks of the primary path. -/
def unlockFinish (v totalInput walletUsed : Int) : Except String UnlockOutcome :=
  if unlockOutputValue v totalInput walletUsed < dustLimit then
    .error ("Output too small (" ++ toString (unlockOutputValue v totalInput walletUsed) ++
      " sats). Need at least 546 sats for dust threshold.")
  else if totalInput - unlockOutputValue v totalInput walletUsed < minRelayFee then
    .error ("Fee too low (" ++ toString (totalInput - unlockOutputValue v totalInput walletUsed) ++
      " sats). Network requires minimum 300 sats.")
  else .ok ⟨unlockOutputValue v totalInput walletUsed, totalInput, walletUsed⟩

/-- Primary unlock assembly for a single script UTXO of value `v`: decide
wallet sponsorship (`singleUtxoValue < actualMinFee || wouldBeOutput < 546`),
pull in wallet UTXOs toward `actualMinFee + 546` when needed, enforce the
`totalInput ≥ singleUtxoValue + estimatedFee` floor, then compute the output
and run the dust / relay-fee checks. -/
def unlockBuild (v : Int) (walletUtxos : List (Utxo × Bool)) : Except String UnlockOutcome :=
  if v < actualMinFee ∨ v - actualMinFee < dustLimit then
    if walletUtxos = [] then .error "No wallet UTXOs available to cover transaction fee"
    else
      if (sponsorLoop (actualMinFee + dustLimit) walletUtxos v 0).1 < v + estimatedUnlockFee then
        .error ("Insufficient funds: need " ++ toString (v + estimatedUnlockFee) ++
          " sats, have " ++ toString (sponsorLoop (actualMinFee + dustLimit) walletUtxos v 0).1 ++ " sats")
      else
        unlockFinish v (sponsorLoop (actualMinFee + dustLimit) walletUtxos v 0).1
          (sponsorLoop (actualMinFee + dustLimit) walletUtxos v 0).2
  else unlockFinish v v 0

/-- Fallback unlock assembly (rebuilt PSBT when the primary extraction
fails): re-fetches wallet UTXOs toward the shortfall
`estimatedFee - singleUtxoValue + 546` when the primary run used wallet
sponsorship, recomputes the output from the primary run's
`walletUtxosNeeded`, and re-runs the dust / relay-fee checks against the
inputs actually added. -/
def fallbackAdded (v walletUsed : Int) (walletUtxos2 : List (Utxo × Bool)) : Int :=
  if 0 < walletUsed then (sponsorLoop (estimatedUnlockFee - v + dustLimit) walletUtxos2 0 0).2
  else 0

/-- The fallback path's `finalOutput`: computed from the primary run's
`walletUtxosNeeded`, not from the re-fetched wallet inputs. -/
def fallbackOutput (v walletUsed : Int) : Int :=
  if 0 < walletUsed then v + max 0 (v + walletUsed - v - actualMinFee) else v - actualMinFee

def unlockFallback (v walletUsed : Int) (walletUtxos2 : List (Utxo × Bool)) :
    Except String UnlockOutcome :=
  if fallbackOutput v walletUsed < dustLimit then
    .error ("Fallback: Output too small (" ++ toString (fallbackOutput v walletUsed) ++
      " sats). Need at least 546 sats for dust threshold.")
  else if v + fallbackAdded v walletUsed walletUtxos2 - fallbackOutput v walletUsed <
      minRelayFee then
    .error ("Fallback: Fee too low (" ++
      toString (v + fallbackAdded v walletUsed walletUtxos2 - fallbackOutput v walletUsed) ++
      " sats). Network requires minimum 300 sats.")
  else
    .ok ⟨fallbackOutput v walletUsed, v + fallbackAdded v walletUsed walletUtxos2,
      fallbackAdded v walletUsed walletUtxos2⟩

theorem unlockFinish_ok (v ti wn : Int) (r : UnlockOutcome)
    (h : unlockFinish v ti wn = .ok r) :
    r = ⟨unlockOutputValue v ti wn, ti, wn⟩ ∧
    dustLimit ≤ r.finalOutput ∧ minRelayFee ≤ r.totalInput - r.finalOutput := by
  unfold unlockFinish at h
  split_ifs at h with h1 h2
  all_goals simp at h
  all_goals cases h
  all_goals exact ⟨rfl, le_of_not_lt h1, le_of_not_lt h2⟩


theorem sponsorLoop_totalInput (shortfall : Int) (l : List (Utxo × Bool)) (ti wn : Int) :
    (sponsorLoop shortfall l ti wn).1 = ti + ((sponsorLoop shortfall l ti wn).2 - wn) := by
  induction l generalizing ti wn with
  | nil => simp [sponsorLoop]
  | cons p rest ih =>
    obtain ⟨u, fetchOk⟩ := p
    unfold sponsorLoop
    split
    · simp
    · split
      · rw [ih]; ring_nf
      · rw [ih]

theorem sponsorLoop_reaches (shortfall : Int) (l : List (Utxo × Bool)) (ti wn : Int) :
    shortfall ≤ (sponsorLoop shortfall l ti wn).2 ∨
      (sponsorLoop shortfall l ti wn).2 = wn + fetchOkSum l := by
  induction l generalizing ti wn with
  | nil => right; simp [sponsorLoop, fetchOkSum]
  | cons p rest ih =>
    obtain ⟨u, fetchOk⟩ := p
    unfold sponsorLoop
    split
    · left; assumption
    · split
      · rename_i hok
        rcases ih (ti + u.value) (wn + u.value) with h | h
        · left; exact h
        · right; rw [h]; simp [fetchOkSum, hok]; ring
      · rename_i hok
        rcases ih ti wn with h | h
        · left; exact h
        · right; rw [h]; simp [fetchOkSum, hok]

theorem actualMinFee_eq : actualMinFee = 1500 := by decide

/-- C1 (amended): on every successful primary unlock build, wallet UTXOs
were pulled in if and only if `scriptUtxoValue < fee` or
`scriptUtxoValue - fee < 546`; without sponsorship the single output is
exactly `scriptUtxoValue - fee` from the script value alone; with
sponsorship the output returns at least the full script value, the total
input covers `scriptUtxoValue + estimatedFee`, and the wallet accumulation
either reached the `fee + 546` shortfall target or consumed every
fetchable wallet UTXO (it may legitimately stop short of `fee + 546`). -/
theorem unlockBuild_sponsorship (v : Int) (wu : List (Utxo × Bool)) (r : UnlockOutcome)
    (h : unlockBuild v wu = .ok r) :
    ((0 < r.walletUsed) ↔ (v < actualMinFee ∨ v - actualMinFee < dustLimit)) ∧
    (¬(v < actualMinFee ∨ v - actualMinFee < dustLimit) →
      r.finalOutput = v - actualMinFee ∧ r.totalInput = v ∧ r.walletUsed = 0) ∧
    ((v < actualMinFee ∨ v - actualMinFee < dustLimit) →
      v ≤ r.finalOutput ∧ v + estimatedUnlockFee ≤ r.totalInput ∧
      r.totalInput = v + r.walletUsed ∧
      (actualMinFee + dustLimit ≤ r.walletUsed ∨ r.walletUsed = fetchOkSum wu)) := by
  unfold unlockBuild at h
  by_cases hc : v < actualMinFee ∨ v - actualMinFee < dustLimit
  · rw [if_pos hc] at h
    by_cases hnil : wu = []
    · rw [if_pos hnil] at h; simp at h
    · rw [if_neg hnil] at h
      by_cases hins : (sponsorLoop (actualMinFee + dustLimit) wu v 0).1 < v + estimatedUnlockFee
      · rw [if_pos hins] at h; simp at h
      · rw [if_neg hins] at h
        obtain ⟨hr, -, -⟩ := unlockFinish_ok _ _ _ _ h
        have hinv := sponsorLoop_totalInput (actualMinFee + dustLimit) wu v 0
        have hreach := sponsorLoop_reaches (actualMinFee + dustLimit) wu v 0
        have hge : v + estimatedUnlockFee ≤ (sponsorLoop (actualMinFee + dustLimit) wu v 0).1 :=
          le_of_not_lt hins
        have hfee : estimatedUnlockFee = 1500 := rfl
        have hpos : 0 < (sponsorLoop (actualMinFee + dustLimit) wu v 0).2 := by omega
        have hp : (sponsorLoop (actualMinFee + dustLimit) wu v 0).1 =
            v + (sponsorLoop (actualMinFee + dustLimit) wu v 0).2 := by omega
        subst hr
        refine ⟨iff_of_true hpos hc, fun hnc => absurd hc hnc, fun _ => ⟨?_, hge, hp, ?_⟩⟩
        · show v ≤ unlockOutputValue v _ _
          rw [unlockOutputValue, if_pos hpos]
          have := le_max_left (0 : Int)
            ((sponsorLoop (actualMinFee + dustLimit) wu v 0).1 - v - actualMinFee)
          omega
        · simpa using hreach
  · rw [if_neg hc] at h
    obtain ⟨hr, -, -⟩ := unlockFinish_ok _ _ _ _ h
    subst hr
    refine ⟨by simp [hc], fun _ => ?_, fun hcc => absurd hcc hc⟩
    simp [unlockOutputValue]

/-- Counterexample to C1 as stated: a 400-sat script UTXO with a single
1700-sat wallet UTXO triggers sponsorship and succeeds, yet the wallet
value pulled in (1700) is below `fee + dustFloor = 2046`, so the claim
that wallet UTXOs are accumulated to cover at least `fee + dustFloor`
fails on this successful unlock. -/
theorem unlockBuild_sponsored_below_shortfall :
    unlockBuild 400 [(⟨"w", 0, 1700⟩, true)] = .ok ⟨600, 2100, 1700⟩ ∧
    (1700 : Int) < actualMinFee + dustLimit := ⟨rfl, by decide⟩

/-- Witness for C1 at the spec's example: a 5000-sat script UTXO does not
trigger sponsorship and returns `5000 - max(1500, 300) = 3500`. -/
theorem unlockBuild_sponsorship_witness :
    (⟨3500, 5000, 0⟩ : UnlockOutcome).finalOutput = 5000 - actualMinFee ∧
    (⟨3500, 5000, 0⟩ : UnlockOutcome).totalInput = 5000 ∧
    (⟨3500, 5000, 0⟩ : UnlockOutcome).walletUsed = 0 :=
  (unlockBuild_sponsorship 5000 [] ⟨3500, 5000, 0⟩ rfl).2.1 (by decide)

/-! ## Script compiler

Embeds `parseScript` (`src/lib/scriptUtils.ts` / `part_005`): one token per
line, dispatched on `OP_` prefix, `0x` prefix, and the all-digits pattern.
Lines are `List Char`, mirroring the JavaScript string operations
(`startsWith`, `slice`, character tests) structurally. -/


/-- Value of an all-digits token, as `parseInt` computes it there. -/
def decimalValue (l : List Char) : Nat :=
  l.foldl (fun acc c => acc * 10 + (c.toNat - '0'.toNat)) 0

/-- Hexadecimal digit test (either case), as accepted by Node's hex decoder. -/
def isHexDigit (c : Char) : Bool :=
  decide (('0' ≤ c ∧ c ≤ '9') ∨ ('a' ≤ c ∧ c ≤ 'f') ∨ ('A' ≤ c ∧ c ≤ 'F'))

/-- Numeric value of a hexadecimal digit. -/
def hexVal (c : Char) : Nat :=
  if '0' ≤ c ∧ c ≤ '9' then c.toNat - '0'.toNat
  else if 'a' ≤ c ∧ c ≤ 'f' then c.toNat - 'a'.toNat + 10
  else c.toNat - 'A'.toNat + 10

/-- Node's `Buffer.from(str, "hex")` semantics, which the source relies on
for `0x` data lines and witness items: decode two hex digits per byte,
stopping silently at the first pair containing a non-hex character and
dropping a trailing unpaired character.  It never throws. -/
def hexPairsDecode : List Char → List Nat
  | c1 :: c2 :: rest =>
    if isHexDigit c1 && isHexDigit c2 then (hexVal c1 * 16 + hexVal c2) :: hexPairsDecode rest
    else []
  | _ => []

/-- Pairwise hex decoding with no validity cut-off: the reference decoding
of an even-length, fully valid hex string. -/
def plainHexDecode : List Char → List Nat
  | c1 :: c2 :: rest => (hexVal c1 * 16 + hexVal c2) :: plainHexDecode rest
  | _ => []

theorem hexPairsDecode_valid : ∀ l : List Char, l.all isHexDigit = true →
    hexPairsDecode l = plainHexDecode l
  | [], _ => rfl
  | [_], _ => rfl
  | c1 :: c2 :: rest, h => by
    simp only [List.all_cons, Bool.and_eq_true] at h
    obtain ⟨h1, h2, h3⟩ := h
    unfold hexPairsDecode plainHexDecode
    rw [if_pos (by simp [h1, h2])]
    rw [hexPairsDecode_valid rest h3]

/-- Little-endian base-256 digits of `n` (empty for `0`). -/
def leBytes (n : Nat) : List Nat :=
  if h : n = 0 then [] else n % 256 :: leBytes (n / 256)
decreasing_by exact Nat.div_lt_self (Nat.pos_of_ne_zero h) (by norm_num)

/-- Modelled from the spec: `bitcoinjs-lib`'s `script.number.encode` on the
non-negative integers this repository feeds it (the library source is an
external dependency, not part of the repository) — the minimal-length
signed little-endian Bitcoin script-number encoding: little-endian
magnitude bytes, plus a zero sign byte when the top magnitude byte has its
high bit set. -/
def scriptNumEncode (n : Nat) : List Nat :=
  if 128 ≤ (leBytes n).getLastD 0 then leBytes n ++ [0] else leBytes n

/-- Unsigned little-endian value of a byte list: the integer a
(non-negative) script-number encoding stands for. -/
def scriptNumValue (l : List Nat) : Nat := l.foldr (fun b acc => b + 256 * acc) 0

/-- Canonical zero-push opcode `OP_0` of the opcode table. -/
def OP_0 : Nat := 0

/-- Small-integer base opcode `OP_1` (81); `OP_n` is `OP_1 + n - 1`. -/
def OP_1 : Nat := 81

/-- A compiled script element: a raw opcode byte or a pushed data blob. -/
inductive ScriptElement where
  | op (code : Nat)
  | data (bytes : List Nat)
deriving DecidableEq, Repr

/-- Per-line dispatch of `parseScript`: `OP_`-prefixed lines are looked up
in the opcode table; `0x`-prefixed lines must have an even number of hex
characters after the prefix and are then decoded with Node's truncating
hex decoder; all-digit lines become small-integer opcodes (`1..16`), the
zero opcode (`0`), or a script-number data push (`> 16`); anything else
fails.  Empty lines (excluded upstream by the filter) contribute no
element. -/
def parseLine (opTable : List Char → Option Nat) (line : List Char) :
    Except String (Option ScriptElement) :=
  if ['O', 'P', '_'].isPrefixOf line then
    match opTable line with
    | some code => .ok (some (.op code))
    | none => .error ("Unknown opcode: " ++ String.mk line)
  else if ['0', 'x'].isPrefixOf line then
    if (line.drop 2).length % 2 ≠ 0 then .error ("Invalid hex data: " ++ String.mk line)
    else .ok (some (.data (hexPairsDecode (line.drop 2))))
  else if line ≠ [] ∧ line.all Char.isDigit = true then
    if 1 ≤ decimalValue line ∧ decimalValue line ≤ 16 then
      .ok (some (.op (OP_1 + decimalValue line - 1)))
    else if decimalValue line = 0 then .ok (some (.op OP_0))
    else .ok (some (.data (scriptNumEncode (decimalValue line))))
  else if line ≠ [] then .error ("Cannot parse line: " ++ String.mk line)
  else .ok none

/-- Counterexample to C5 as stated: the line `0xzz` has an even-length,
invalid hex payload, yet compilation does not fail with the invalid-hex
error — the code checks only evenness, and Node's decoder silently returns
an empty buffer, which is pushed as an (empty) data element. -/
theorem parseLine_hex_invalid_accepted :
    parseLine (fun _ => none) ['0', 'x', 'z', 'z'] = .ok (some (.data [])) ∧
    isHexDigit 'z' = false := ⟨rfl, rfl⟩

/-- C5 (amended): a `0x` line fails with the invalid-hex-data error naming
the line exactly when the remaining string has odd length; with even
length it always succeeds, pushing the bytes produced by the truncating
hex decoder as a data element — and when the remaining string is entirely
valid hex those bytes are its verbatim pairwise decoding. -/
theorem parseLine_hex (opTable : List Char → Option Nat) (rest : List Char) :
    (rest.length % 2 ≠ 0 →
      parseLine opTable ('0' :: 'x' :: rest) =
        .error ("Invalid hex data: " ++ String.mk ('0' :: 'x' :: rest))) ∧
    (rest.length % 2 = 0 →
      parseLine opTable ('0' :: 'x' :: rest) = .ok (some (.data (hexPairsDecode rest)))) ∧
    (rest.all isHexDigit = true → hexPairsDecode rest = plainHexDecode rest) := by
  refine ⟨fun hodd => ?_, fun heven => ?_, fun hall => hexPairsDecode_valid rest hall⟩
  · unfold parseLine
    rw [if_neg (fun h => nomatch h),
      if_pos (show (['0', 'x'].isPrefixOf ('0' :: 'x' :: rest)) = true by simp [List.isPrefixOf]),
      if_pos (show (List.drop 2 ('0' :: 'x' :: rest)).length % 2 ≠ 0 from hodd)]
  · unfold parseLine
    rw [if_neg (fun h => nomatch h),
      if_pos (show (['0', 'x'].isPrefixOf ('0' :: 'x' :: rest)) = true by simp [List.isPrefixOf]),
      if_neg (show ¬(List.drop 2 ('0' :: 'x' :: rest)).length % 2 ≠ 0 from fun h => h heven)]
    rfl

theorem leBytes_ne_nil (n : Nat) (h : n ≠ 0) : leBytes n ≠ [] := by
  rw [leBytes, dif_neg h]; simp

theorem leBytes_cons (n : Nat) (h : n ≠ 0) : leBytes n = n % 256 :: leBytes (n / 256) := by
  rw [leBytes, dif_neg h]

theorem leBytes_value (n : Nat) : scriptNumValue (leBytes n) = n := by
  induction n using Nat.strong_induction_on with
  | _ n ih =>
    by_cases h : n = 0
    · subst h; rw [leBytes]; simp [scriptNumValue]
    · have hlt : n / 256 < n := Nat.div_lt_self (Nat.pos_of_ne_zero h) (by norm_num)
      have ihv := ih _ hlt
      rw [leBytes_cons n h]
      unfold scriptNumValue at ihv ⊢
      rw [List.foldr_cons, ihv]
      omega

theorem leBytes_lt_pow (n : Nat) : n < 256 ^ (leBytes n).length := by
  induction n using Nat.strong_induction_on with
  | _ n ih =>
    by_cases h : n = 0
    · subst h; rw [leBytes]; simp
    · have hlt : n / 256 < n := Nat.div_lt_self (Nat.pos_of_ne_zero h) (by norm_num)
      have ihv := ih _ hlt
      rw [leBytes_cons n h]
      simp only [List.length_cons, pow_succ]
      have h2 : n / 256 + 1 ≤ 256 ^ (leBytes (n / 256)).length := ihv
      calc n < 256 * (n / 256 + 1) := by omega
        _ ≤ 256 * 256 ^ (leBytes (n / 256)).length := by
            exact Nat.mul_le_mul_left 256 h2
        _ = 256 ^ (leBytes (n / 256)).length * 256 := Nat.mul_comm _ _

theorem leBytes_cons_length (n : Nat) (h : n ≠ 0) :
    (leBytes n).length = (leBytes n).length - 1 + 1 := by
  have := leBytes_ne_nil n h
  cases hc : leBytes n with
  | nil => exact absurd hc this
  | cons a l => simp

theorem leBytes_pow_le : ∀ n : Nat, n ≠ 0 → 256 ^ ((leBytes n).length - 1) ≤ n := by
  intro n
  induction n using Nat.strong_induction_on with
  | _ n ih =>
    intro h
    rw [leBytes_cons n h]
    by_cases hd : n / 256 = 0
    · rw [hd, leBytes]
      simpa using Nat.pos_of_ne_zero h
    · have hlt : n / 256 < n := Nat.div_lt_self (Nat.pos_of_ne_zero h) (by norm_num)
      have ihv := ih _ hlt hd
      simp only [List.length_cons, Nat.add_sub_cancel]
      rw [leBytes_cons_length _ hd, pow_succ]
      calc 256 ^ ((leBytes (n / 256)).length - 1) * 256 ≤ n / 256 * 256 :=
            Nat.mul_le_mul_right 256 ihv
        _ ≤ n := by omega

theorem leBytes_msb : ∀ n : Nat, n ≠ 0 →
    (leBytes n).getLastD 0 = n / 256 ^ ((leBytes n).length - 1) := by
  intro n
  induction n using Nat.strong_induction_on with
  | _ n ih =>
    intro h
    rw [leBytes_cons n h]
    by_cases hd : n / 256 = 0
    · have hnlt : n < 256 := by omega
      rw [hd, show leBytes 0 = [] from by rw [leBytes]; simp]
      simp
      omega
    · have hlt : n / 256 < n := Nat.div_lt_self (Nat.pos_of_ne_zero h) (by norm_num)
      have ihv := ih _ hlt hd
      have hne := leBytes_ne_nil _ hd
      rw [List.getLastD_cons]
      have hswap : (leBytes (n / 256)).getLastD (n % 256) = (leBytes (n / 256)).getLastD 0 := by
        cases hc : leBytes (n / 256) with
        | nil => exact absurd hc hne
        | cons a l => rw [List.getLastD_cons, List.getLastD_cons]
      rw [hswap, ihv, Nat.div_div_eq_div_mul]
      simp only [List.length_cons, Nat.add_sub_cancel]
      congr 1
      conv_rhs => rw [leBytes_cons_length _ hd]
      rw [pow_succ]
      ring

theorem scriptNumValue_encode (n : Nat) : scriptNumValue (scriptNumEncode n) = n := by
  unfold scriptNumEncode
  split
  · have hv := leBytes_value n
    unfold scriptNumValue at hv ⊢
    rw [List.foldr_append]
    simpa using hv
  · exact leBytes_value n

theorem pow2_eq_128_mul (k : Nat) (hk : 1 ≤ k) :
    (2 : Nat) ^ (8 * k - 1) = 128 * 256 ^ (k - 1) := by
  rw [show 8 * k - 1 = 7 + 8 * (k - 1) by omega, pow_add,
    show (256 : Nat) = 2 ^ 8 by norm_num, ← pow_mul]
  norm_num

theorem scriptNumEncode_minimal (n : Nat) (h : n ≠ 0) :
    n < 2 ^ (8 * (scriptNumEncode n).length - 1) ∧
    (∀ m, m < (scriptNumEncode n).length → 2 ^ (8 * m - 1) ≤ n) := by
  have hk1 : 1 ≤ (leBytes n).length := by
    rw [leBytes_cons_length n h]; omega
  have hup : n < 256 ^ (leBytes n).length := leBytes_lt_pow n
  have hlow : 256 ^ ((leBytes n).length - 1) ≤ n := leBytes_pow_le n h
  have hmsb := leBytes_msb n h
  have h256 : (256 : Nat) ^ ((leBytes n).length - 1) = 2 ^ (8 * ((leBytes n).length - 1)) := by
    rw [show (256 : Nat) = 2 ^ 8 by norm_num, ← pow_mul]
  have hppos : 0 < (256 : Nat) ^ ((leBytes n).length - 1) := Nat.pos_pow_of_pos _ (by norm_num)
  unfold scriptNumEncode
  split
  · rename_i hbig
    rw [hmsb] at hbig
    have hge : 128 * 256 ^ ((leBytes n).length - 1) ≤ n :=
      (Nat.le_div_iff_mul_le hppos).mp hbig
    have hlen : (leBytes n ++ [0]).length = (leBytes n).length + 1 := by simp
    rw [hlen]
    constructor
    · calc n < 256 ^ (leBytes n).length := hup
        _ = 2 ^ (8 * (leBytes n).length) := by
            rw [show (256 : Nat) = 2 ^ 8 by norm_num, ← pow_mul]
        _ ≤ 2 ^ (8 * ((leBytes n).length + 1) - 1) :=
            Nat.pow_le_pow_right (by norm_num) (by omega)
    · intro m hm
      calc (2 : Nat) ^ (8 * m - 1) ≤ 2 ^ (8 * (leBytes n).length - 1) :=
            Nat.pow_le_pow_right (by norm_num) (by omega)
        _ = 128 * 256 ^ ((leBytes n).length - 1) := pow2_eq_128_mul _ hk1
        _ ≤ n := hge
  · rename_i hsmall
    rw [hmsb] at hsmall
    have hub : n < 128 * 256 ^ ((leBytes n).length - 1) := by
      have := Nat.lt_of_not_le hsmall
      exact (Nat.div_lt_iff_lt_mul hppos).mp this |>.trans_le (by rw [Nat.mul_comm])
    constructor
    · rw [pow2_eq_128_mul _ hk1]
      exact hub
    · intro m hm
      calc (2 : Nat) ^ (8 * m - 1) ≤ 2 ^ (8 * ((leBytes n).length - 1)) :=
            Nat.pow_le_pow_right (by norm_num) (by omega)
        _ = 256 ^ ((leBytes n).length - 1) := h256.symm
        _ ≤ n := hlow

theorem digits_not_op (line : List Char) (h2 : line ≠ [])
    (h1 : line.all Char.isDigit = true) :
    ¬(['O', 'P', '_'].isPrefixOf line = true) := by
  cases line with
  | nil => exact absurd rfl h2
  | cons c cs =>
    simp only [List.all_cons, Bool.and_eq_true] at h1
    intro hpre
    have hOc : ('O' == c) = true := by
      have : (('O' == c) && List.isPrefixOf ['P', '_'] cs) = true := hpre
      exact (Bool.and_eq_true _ _ |>.mp this).1
    have : c = 'O' := (beq_iff_eq.mp hOc).symm
    rw [this] at h1
    exact absurd h1.1 (by decide)

theorem digits_not_hexPre (line : List Char) (h2 : line ≠ [])
    (h1 : line.all Char.isDigit = true) :
    ¬(['0', 'x'].isPrefixOf line = true) := by
  cases line with
  | nil => exact absurd rfl h2
  | cons c cs =>
    simp only [List.all_cons, Bool.and_eq_true] at h1
    intro hpre
    have hsplit : (('0' == c) && List.isPrefixOf ['x'] cs) = true := hpre
    have hxs : List.isPrefixOf ['x'] cs = true := (Bool.and_eq_true _ _ |>.mp hsplit).2
    cases cs with
    | nil => exact absurd hxs (by decide)
    | cons d ds =>
      have hxd : ('x' == d) = true :=
        (Bool.and_eq_true _ _ |>.mp (show (('x' == d) && List.isPrefixOf [] ds) = true from hxs)).1
      have : d = 'x' := (beq_iff_eq.mp hxd).symm
      have hdall := h1.2
      simp only [List.all_cons, Bool.and_eq_true] at hdall
      rw [this] at hdall
      exact absurd hdall.1 (by decide)

/-- C6: an all-digits line of value `n` compiles to the canonical zero-push
opcode for `0`, to the single opcode `OP_1 + n - 1` for `1 ≤ n ≤ 16`, and
for `n > 16` to a data push of the Bitcoin script-number encoding of `n` —
which really is a minimal-length little-endian encoding: its unsigned
little-endian value is `n`, `n` fits the sign-bit headroom of its length
(`n < 2 ^ (8·len − 1)`), and no shorter length has such headroom
(`2 ^ (8·m − 1) ≤ n` for every `m < len`). -/
theorem parseLine_decimal (opTable : List Char → Option Nat) (line : List Char) (n : Nat)
    (h1 : line ≠ []) (h2 : line.all Char.isDigit = true) (h3 : decimalValue line = n) :
    parseLine opTable line =
      .ok (some (if n = 0 then .op OP_0
        else if n ≤ 16 then .op (OP_1 + n - 1)
        else .data (scriptNumEncode n))) ∧
    (16 < n →
      scriptNumValue (scriptNumEncode n) = n ∧
      n < 2 ^ (8 * (scriptNumEncode n).length - 1) ∧
      (∀ m, m < (scriptNumEncode n).length → 2 ^ (8 * m - 1) ≤ n)) := by
  subst h3
  constructor
  · unfold parseLine
    rw [if_neg (digits_not_op line h1 h2), if_neg (digits_not_hexPre line h1 h2),
      if_pos ⟨h1, h2⟩]
    by_cases hz : decimalValue line = 0
    · rw [if_neg (by omega), if_pos hz, hz]
      simp
    · by_cases h16 : decimalValue line ≤ 16
      · rw [if_pos ⟨Nat.one_le_iff_ne_zero.mpr hz, h16⟩]
        rw [if_neg hz, if_pos h16]
      · rw [if_neg (by omega), if_neg hz, if_neg hz, if_neg h16]
  · intro h16
    refine ⟨scriptNumValue_encode _, ?_, ?_⟩
    · exact (scriptNumEncode_minimal _ (by omega)).1
    · exact (scriptNumEncode_minimal _ (by omega)).2

/-- Witness for C6 at `n = 17`: the line `17` compiles to a data push of
`[0x11]`, whose script-number value is `17`. -/
theorem parseLine_decimal_witness :
    parseLine (fun _ => none) ['1', '7'] = .ok (some (.data [17])) ∧
    scriptNumValue [17] = 17 := by
  have h := parseLine_decimal (fun _ => none) ['1', '7'] 17 (by simp) rfl rfl
  have l0 : leBytes 0 = [] := by rw [leBytes]; simp
  have l17 : leBytes 17 = [17] := by
    rw [leBytes]
    norm_num [l0]
  have e : scriptNumEncode 17 = [17] := by
    rw [scriptNumEncode, l17]
    norm_num
  constructor
  · rw [h.1, if_neg (by omega), if_neg (by omega), e]
  · rw [← e]
    exact (h.2 (by omega)).1

/-! ## Witness-stack item conversion (from `unlockScript`, `part_008`) -/

/-- UTF-8 encoding of a single character (`Buffer.from(item, "utf8")`). -/
def utf8EncodeChar (c : Char) : List Nat :=
  let n := c.toNat
  if n < 128 then [n]
  else if n < 2048 then [192 + n / 64, 128 + n % 64]
  else if n < 65536 then [224 + n / 4096, 128 + n / 64 % 64, 128 + n % 64]
  else [240 + n / 262144, 128 + n / 4096 % 64, 128 + n / 64 % 64, 128 + n % 64]

/-- UTF-8 bytes of a string given as characters. -/
def utf8Encode (l : List Char) : List Nat := (l.map utf8EncodeChar).flatten

/-- Witness-item conversion of `unlockScript`: `0x` prefix → truncating hex
decode of the remainder; `OP_TRUE`/`1` → the single byte `0x01`;
`OP_FALSE`/`0` → the empty byte string; any other all-digits item → its
script-number encoding; anything else → its raw UTF-8 bytes. -/
def witnessItemToBytes (item : List Char) : List Nat :=
  if ['0', 'x'].isPrefixOf item then hexPairsDecode (item.drop 2)
  else if item = ['O', 'P', '_', 'T', 'R', 'U', 'E'] ∨ item = ['1'] then [1]
  else if item = ['O', 'P', '_', 'F', 'A', 'L', 'S', 'E'] ∨ item = ['0'] then []
  else if item ≠ [] ∧ item.all Char.isDigit = true then scriptNumEncode (decimalValue item)
  else utf8Encode item

/-- A witness item classified per the spec's tagged-variant reading, with
the ambiguity-resolution precedence hex prefix → boolean keyword →
all-digits → literal text. -/
inductive WitnessForm where
  | hexItem (hexChars : List Char)
  | boolItem (b : Bool)
  | intItem (value : Nat)
  | textItem (chars : List Char)
deriving DecidableEq, Repr

/-- Classification of a witness item following the spec's words: first the
hex prefix, then the boolean keywords (`OP_TRUE`/`1`, `OP_FALSE`/`0`),
then the all-digits form, and literal text last. -/
def classifyWitnessItem (item : List Char) : WitnessForm :=
  if ['0', 'x'].isPrefixOf item then .hexItem (item.drop 2)
  else if item = ['O', 'P', '_', 'T', 'R', 'U', 'E'] ∨ item = ['1'] then .boolItem true
  else if item = ['O', 'P', '_', 'F', 'A', 'L', 'S', 'E'] ∨ item = ['0'] then .boolItem false
  else if item ≠ [] ∧ item.all Char.isDigit = true then .intItem (decimalValue item)
  else .textItem item

/-- Byte rendering of a classified witness item per the spec: hex decode,
`0x01` for true, the empty byte string for false, the canonical
script-number encoding for integers, raw UTF-8 bytes for text. -/
def witnessFormBytes : WitnessForm → List Nat
  | .hexItem hexChars => hexPairsDecode hexChars
  | .boolItem true => [1]
  | .boolItem false => []
  | .intItem value => scriptNumEncode value
  | .textItem chars => utf8Encode chars

/-- C7: the unlock builder's witness-item conversion agrees with the
spec's tagged precedence rule (hex prefix → boolean keyword → all-digits →
literal text) on every item, and on representative items of each form it
produces the claimed bytes: hex decodes, `OP_TRUE`/`1` become `0x01`,
`OP_FALSE`/`0` become the empty byte string, `17` becomes its script-number
encoding `0x11`, and plain text becomes raw UTF-8 bytes. -/
theorem witnessItemToBytes_follows_precedence :
    (∀ item : List Char, witnessItemToBytes item = witnessFormBytes (classifyWitnessItem item)) ∧
    witnessItemToBytes ['0', 'x', '0', '1'] = [1] ∧
    witnessItemToBytes ['O', 'P', '_', 'T', 'R', 'U', 'E'] = [1] ∧
    witnessItemToBytes ['1'] = [1] ∧
    witnessItemToBytes ['O', 'P', '_', 'F', 'A', 'L', 'S', 'E'] = [] ∧
    witnessItemToBytes ['0'] = [] ∧
    witnessItemToBytes ['1', '7'] = [17] ∧
    witnessItemToBytes ['h', 'i'] = [104, 105] := by
  refine ⟨fun item => ?_, rfl, rfl, rfl, rfl, rfl, ?_, rfl⟩
  · unfold witnessItemToBytes classifyWitnessItem witnessFormBytes
    split_ifs <;> rfl
  · show scriptNumEncode (decimalValue ['1', '7']) = [17]
    have l0 : leBytes 0 = [] := by rw [leBytes]; simp
    have l17 : leBytes 17 = [17] := by
      rw [leBytes]
      norm_num [l0]
    show scriptNumEncode 17 = [17]
    rw [scriptNumEncode, l17]
    norm_num

/-! ## Script registry (from `part_005`)

The registry is the parsed content of the `btc_tracked_scripts`
local-storage key: a flat list of tracked-script records.  `save` appends;
`markScriptAsSpent` maps over the list flipping `isSpent` on matching
addresses. -/

/-- A tracked-script record as persisted by the registry. -/
structure TrackedScript where
  id : String
  scriptAddress : String
  originalScript : String
  compiledScript : String
  createdAt : Nat
  createdBy : String
  fundingTxid : String
  amount : Nat
  isSpent : Bool
deriving DecidableEq, Repr

/-- `saveTrackedScript`: append the new record to the stored list. -/
def saveTrackedScript (record : TrackedScript) (reg : List TrackedScript) :
    List TrackedScript := reg ++ [record]

/-- `markScriptAsSpent`: map over the stored records, setting `isSpent` on
every record whose `scriptAddress` matches. -/
def markScriptAsSpent (scriptAddress : String) (reg : List TrackedScript) :
    List TrackedScript :=
  reg.map fun s => if s.scriptAddress = scriptAddress then { s with isSpent := true } else s

/-- C9: marking a script address spent is idempotent — a second call with
the same address leaves the registry exactly as the first left it. -/
theorem markScriptAsSpent_idempotent (scriptAddress : String) (reg : List TrackedScript) :
    markScriptAsSpent scriptAddress (markScriptAsSpent scriptAddress reg) =
      markScriptAsSpent scriptAddress reg := by
  unfold markScriptAsSpent
  induction reg with
  | nil => rfl
  | cons s rest ih =>
    simp only [List.map_cons, List.map_map] at ih ⊢
    rw [ih]
    by_cases h : s.scriptAddress = scriptAddress
    · simp [h]
    · simp [h]

/-- The per-record effect of `markScriptAsSpent`, spelled field by field:
`isSpent` becomes true exactly on a matching address, every other field is
untouched. -/
def markSpentRecord (scriptAddress : String) (s : TrackedScript) : TrackedScript where
  id := s.id
  scriptAddress := s.scriptAddress
  originalScript := s.originalScript
  compiledScript := s.compiledScript
  createdAt := s.createdAt
  createdBy := s.createdBy
  fundingTxid := s.fundingTxid
  amount := s.amount
  isSpent := if s.scriptAddress = scriptAddress then true else s.isSpent

/-- C10: `markScriptAsSpent` neither adds nor removes records, and rewrites
each stored record — including every historical duplicate for the address —
to the same record with `isSpent` set exactly when its `scriptAddress`
equals the given address, all other fields unchanged. -/
theorem markScriptAsSpent_frame (scriptAddress : String) (reg : List TrackedScript) :
    (markScriptAsSpent scriptAddress reg).length = reg.length ∧
    markScriptAsSpent scriptAddress reg = reg.map (markSpentRecord scriptAddress) := by
  refine ⟨by simp [markScriptAsSpent], ?_⟩
  unfold markScriptAsSpent
  induction reg with
  | nil => rfl
  | cons s rest ih =>
    simp only [List.map_cons] at ih ⊢
    rw [ih]
    by_cases h : s.scriptAddress = scriptAddress
    · simp [markSpentRecord, h]
    · simp [markSpentRecord, h]

/-! ## Funding and unlock flows

The full `createScriptTransaction` and `unlockScript` operations, with the
external collaborators (explorer fetches, the wallet signer, broadcast)
supplied as an explicit environment of outcomes.  Every step preserves the
source's ordering; in particular all failure points precede the broadcast
call, and the registry writes follow it. -/

/-- Substring test, the model of JavaScript's `String.prototype.includes`. -/
def containsSubstr (s sub : String) : Bool := decide (sub.toList <:+: s.toList)

/-- Leading/trailing whitespace removal (`String.prototype.trim`). -/
def trimChars (l : List Char) : List Char :=
  ((l.dropWhile Char.isWhitespace).reverse.dropWhile Char.isWhitespace).reverse

/-- Split on newline characters (`split("\n")`). -/
def splitNewlines : List Char → List (List Char)
  | [] => [[]]
  | c :: rest =>
    if c = '\n' then [] :: splitNewlines rest
    else
      match splitNewlines rest with
      | [] => [[c]]
      | l :: ls => (c :: l) :: ls

/-- Line preprocessing of `parseScript`: split, trim, and drop blank and
`//`-comment lines. -/
def scriptLines (text : List Char) : List (List Char) :=
  ((splitNewlines text).map trimChars).filter fun l =>
    !l.isEmpty && !(['/', '/'].isPrefixOf l)

def parseScriptGo (opTable : List Char → Option Nat) :
    List (List Char) → Except String (List ScriptElement)
  | [] => .ok []
  | l :: ls =>
    match parseLine opTable l with
    | .error e => .error e
    | .ok none => parseScriptGo opTable ls
    | .ok (some el) => (parseScriptGo opTable ls).map fun els => el :: els

/-- Whole-script compilation front-end: preprocess the source text and fold
`parseLine` over the surviving lines, failing on the first bad line. -/
def parseScriptText (opTable : List Char → Option Nat) (text : List Char) :
    Except String (List ScriptElement) :=
  parseScriptGo opTable (scriptLines text)

/-- Push-length framing of `bitcoinjs-lib`'s compile step: a direct length
byte up to 75 bytes, `OP_PUSHDATA1/2/4` beyond. -/
def pushHeader (len : Nat) : List Nat :=
  if len ≤ 75 then [len]
  else if len ≤ 255 then [76, len]
  else if len ≤ 65535 then [77, len % 256, len / 256]
  else [78, len % 256, len / 256 % 256, len / 65536 % 256, len / 16777216]

/-- Serialization of one element, including the compile step's
minimal-push canonicalization of empty and single-byte data. -/
def compileElement : ScriptElement → List Nat
  | .op code => [code]
  | .data [] => [0]
  | .data [b] =>
    if 1 ≤ b ∧ b ≤ 16 then [80 + b]
    else if b = 129 then [79]
    else pushHeader 1 ++ [b]
  | .data bs => pushHeader bs.length ++ bs

/-- Byte serialization of a compiled script. -/
def compileScript (els : List ScriptElement) : List Nat := (els.map compileElement).flatten

/-- Lower-case hex digit character. -/
def hexDigitChar (n : Nat) : Char :=
  if n < 10 then Char.ofNat ('0'.toNat + n) else Char.ofNat ('a'.toNat + n - 10)

/-- Lower-case hex string of a byte list (`buffer.toString("hex")`). -/
def bytesToHex (bs : List Nat) : String :=
  String.mk ((bs.map fun b => [hexDigitChar (b / 16 % 16), hexDigitChar (b % 16)]).flatten)

/-- Flat conservative fee of the funding flow (`estimatedFee = 1000`). -/
def estimatedFundingFee : Nat := 1000

/-- The funding flow's insufficiency message, citing the available total
and the required amount. -/
def insufficientFundsMsg (available needed : Nat) : String :=
  "Insufficient funds: have " ++ toString available ++ ", need " ++ toString needed

/-- UTXO availability, balance pre-check and selection of the funding flow
(steps 3 and 4 of `createScriptTransaction`). -/
def fundSelectStage (utxos : List Utxo) (amount : Nat) : Except String SelectResult :=
  if utxos = [] then .error "No UTXOs available. Make sure your wallet has testnet Bitcoin."
  else if sumVal utxos < amount + estimatedFundingFee then
    .error (insufficientFundsMsg (sumVal utxos) (amount + estimatedFundingFee))
  else selectUtxos utxos (amount + estimatedFundingFee)

/-- The catch-block message rewriting of `createScriptTransaction`,
keyed on substrings of the thrown message. -/
def classifyFundError (msg : String) : String :=
  if containsSubstr msg "Insufficient funds" then
    "Insufficient funds. Make sure you have enough testnet Bitcoin plus fee."
  else if containsSubstr msg "Unknown opcode" then "Script parsing error: " ++ msg
  else if containsSubstr msg "Failed to fetch UTXOs" then
    "Failed to fetch UTXOs. Check your internet connection and wallet address."
  else if containsSubstr msg "Failed to broadcast" then
    "Failed to broadcast transaction. The transaction may be invalid."
  else msg

/-- Outcomes of the funding flow's external collaborators. -/
structure FundEnv where
  utxos : Option (List Utxo)
  fetchOk : Utxo → Bool
  signerAvailable : Bool
  signOk : Bool
  extractOk : Bool
  broadcast : Option String

/-- Everything `createScriptTransaction` does before the broadcast call:
compile, derive the script address, fetch and select UTXOs, resolve each
selected input's previous output script, sign and extract.  Any failure
here aborts the flow before broadcast. -/
def fundPreBroadcast (opTable : List Char → Option Nat) (deriveAddr : List Nat → Option String)
    (scriptCode : List Char) (amount : Nat) (env : FundEnv) :
    Except String (List Nat × String) :=
  match parseScriptText opTable scriptCode with
  | .error e => .error e
  | .ok els =>
    match deriveAddr (compileScript els) with
    | none => .error "Failed to generate script address"
    | some addr =>
      match env.utxos with
      | none => .error "Failed to fetch UTXOs"
      | some utxos =>
        match fundSelectStage utxos amount with
        | .error e => .error e
        | .ok sel =>
          if sel.selectedUtxos.all env.fetchOk then
            if env.signerAvailable then
              if env.signOk then
                if env.extractOk then .ok (compileScript els, addr)
                else .error "Failed to extract transaction"
              else .error "Signing failed"
            else .error "UniSat wallet not available"
          else .error "Failed to add UTXO"

/-- `createScriptTransaction`: run the pre-broadcast pipeline, broadcast,
and only on broadcast success persist the tracked-script record; the
catch block rewrites error messages.  Returns the result together with
the registry state after the call. -/
def createScriptTransactionM (opTable : List Char → Option Nat)
    (deriveAddr : List Nat → Option String) (scriptCode : List Char) (amount : Nat)
    (walletAddress : String) (now : Nat) (env : FundEnv) (reg : List TrackedScript) :
    Except String (String × String) × List TrackedScript :=
  match fundPreBroadcast opTable deriveAddr scriptCode amount env with
  | .error e => (.error (classifyFundError e), reg)
  | .ok payload =>
    match env.broadcast with
    | none => (.error (classifyFundError "Failed to broadcast transaction"), reg)
    | some txid =>
      (.ok (txid, payload.2),
        saveTrackedScript
          { id := txid ++ "_0", scriptAddress := payload.2,
            originalScript := String.mk scriptCode, compiledScript := bytesToHex payload.1,
            createdAt := now, createdBy := walletAddress, fundingTxid := txid,
            amount := amount, isSpent := false } reg)

/-- Outcomes of the unlock flow's external collaborators.  `walletUtxos`
is the wallet fetch used by the sponsorship block, `walletUtxos2` the
re-fetch of the fallback path. -/
structure UnlockEnv where
  pubKeyOk : Bool
  walletUtxos : List (Utxo × Bool)
  signerAvailable : Bool
  signOk : Bool
  finalizeOk : Bool
  extractOk : Bool
  walletUtxos2 : Option (List (Utxo × Bool))
  extract2Ok : Bool
  broadcast : Option String

/-- The value of `script.utxos[0]?.value || 0`. -/
def firstUtxoValue (scriptUtxos : List Utxo) : Int :=
  ((scriptUtxos.head?.map fun u => u.value).getD 0 : Nat)

/-- Signature-need heuristic: substring search for signature-checking
opcodes over the original script source. -/
def scriptNeedsSignatures (source : String) : Bool :=
  containsSubstr source "OP_CHECKSIG" || containsSubstr source "OP_CHECKMULTISIG" ||
    containsSubstr source "OP_CHECKDATASIG"

/-- Everything `unlockScript` does before the broadcast call: guards,
address recheck, the primary assembly (`unlockBuild`), witness conversion,
the signing gates, witness finalization, and — when the primary extraction
fails — the fallback assembly (`unlockFallback`) with its own checks. -/
def unlockPreBroadcast (deriveAddr : List Nat → Option String) (record : TrackedScript)
    (scriptUtxos : List Utxo) (witnessItems : List (List Char)) (walletAddress : String)
    (env : UnlockEnv) : Except String UnlockOutcome :=
  if walletAddress = "" then .error "Wallet not connected"
  else if scriptUtxos = [] then .error "No UTXOs found at this script address"
  else if env.pubKeyOk = false then .error "Failed to get public key"
  else
    match deriveAddr (hexPairsDecode record.compiledScript.toList) with
    | none => .error "Script address mismatch"
    | some addr =>
      if addr ≠ record.scriptAddress then .error "Script address mismatch"
      else
        match unlockBuild (firstUtxoValue scriptUtxos) env.walletUtxos with
        | .error e => .error e
        | .ok r =>
          let _witnessStack := witnessItems.map witnessItemToBytes
          if (decide (0 < r.walletUsed) || scriptNeedsSignatures record.originalScript) &&
              !env.signerAvailable then .error "UniSat wallet not available"
          else if (decide (0 < r.walletUsed) || scriptNeedsSignatures record.originalScript) &&
              !env.signOk then .error "Signing failed"
          else if !env.finalizeOk then .error "Failed to process script input"
          else if env.extractOk then .ok r
          else if 0 < r.walletUsed then
            match env.walletUtxos2 with
            | none => .error "Failed to fetch UTXOs"
            | some wu2 =>
              match unlockFallback (firstUtxoValue scriptUtxos) r.walletUsed wu2 with
              | .error e => .error e
              | .ok r2 => if env.extract2Ok then .ok r2 else .error "Failed to extract transaction"
          else
            match unlockFallback (firstUtxoValue scriptUtxos) r.walletUsed [] with
            | .error e => .error e
            | .ok r2 => if env.extract2Ok then .ok r2 else .error "Failed to extract transaction"

/-- `unlockScript`: run the pre-broadcast pipeline, broadcast, and only on
broadcast success mark the record spent.  The third component records
whether a broadcast was attempted at all. -/
def unlockScriptM (deriveAddr : List Nat → Option String) (record : TrackedScript)
    (scriptUtxos : List Utxo) (witnessItems : List (List Char)) (walletAddress : String)
    (env : UnlockEnv) (reg : List TrackedScript) :
    Except String String × List TrackedScript × Bool :=
  match unlockPreBroadcast deriveAddr record scriptUtxos witnessItems walletAddress env with
  | .error e => (.error e, reg, false)
  | .ok _ =>
    match env.broadcast with
    | none => (.error "Failed to broadcast transaction", reg, true)
    | some txid => (.ok txid, markScriptAsSpent record.scriptAddress reg, true)

/-- Truth of `Except` success, for stating the side-effect discipline. -/
def exceptIsOk : Except String α → Bool
  | .ok _ => true
  | .error _ => false

theorem unlockBuild_ok_bounds (v : Int) (wu : List (Utxo × Bool)) (r : UnlockOutcome)
    (h : unlockBuild v wu = .ok r) :
    dustLimit ≤ r.finalOutput ∧ minRelayFee ≤ r.totalInput - r.finalOutput := by
  unfold unlockBuild at h
  by_cases hc : v < actualMinFee ∨ v - actualMinFee < dustLimit
  · rw [if_pos hc] at h
    by_cases hnil : wu = []
    · rw [if_pos hnil] at h; simp at h
    · rw [if_neg hnil] at h
      by_cases hins : (sponsorLoop (actualMinFee + dustLimit) wu v 0).1 < v + estimatedUnlockFee
      · rw [if_pos hins] at h; simp at h
      · rw [if_neg hins] at h
        exact (unlockFinish_ok _ _ _ _ h).2
  · rw [if_neg hc] at h
    exact (unlockFinish_ok _ _ _ _ h).2

theorem unlockFallback_ok_bounds (v wn : Int) (wu2 : List (Utxo × Bool)) (r : UnlockOutcome)
    (h : unlockFallback v wn wu2 = .ok r) :
    dustLimit ≤ r.finalOutput ∧ minRelayFee ≤ r.totalInput - r.finalOutput := by
  unfold unlockFallback at h
  split_ifs at h with h1 h2
  all_goals simp at h
  all_goals cases h
  all_goals exact ⟨le_of_not_lt h1, le_of_not_lt h2⟩

/-- C2: on every unlock attempt, in the primary path and in the fallback
path alike, an assembly that passes the pre-broadcast checks has its
output at or above the 546-satoshi dust floor and its implied fee (total
input minus output) at or above the 300-satoshi minimum relay fee; and
when the pre-broadcast pipeline fails, the operation returns that failure
with the registry untouched and no broadcast is attempted. -/
theorem unlock_dust_and_fee_checks (v : Int) (wu : List (Utxo × Bool)) (wn : Int)
    (wu2 : List (Utxo × Bool)) (r r2 : UnlockOutcome)
    (deriveAddr : List Nat → Option String) (record : TrackedScript)
    (scriptUtxos : List Utxo) (witnessItems : List (List Char)) (walletAddress : String)
    (env : UnlockEnv) (reg : List TrackedScript) (e : String)
    (h1 : unlockBuild v wu = .ok r)
    (h2 : unlockFallback v wn wu2 = .ok r2)
    (h3 : unlockPreBroadcast deriveAddr record scriptUtxos witnessItems walletAddress env =
      .error e) :
    (dustLimit ≤ r.finalOutput ∧ minRelayFee ≤ r.totalInput - r.finalOutput) ∧
    (dustLimit ≤ r2.finalOutput ∧ minRelayFee ≤ r2.totalInput - r2.finalOutput) ∧
    unlockScriptM deriveAddr record scriptUtxos witnessItems walletAddress env reg =
      (.error e, reg, false) := by
  refine ⟨unlockBuild_ok_bounds v wu r h1, unlockFallback_ok_bounds v wn wu2 r2 h2, ?_⟩
  unfold unlockScriptM
  rw [h3]

/-- Witness for C2 at a 5000-satoshi script UTXO: both paths pass the
checks with output 3500 and fee 1500, and a disconnected wallet aborts
before any broadcast. -/
theorem unlock_dust_and_fee_checks_witness :
    ((dustLimit ≤ (⟨3500, 5000, 0⟩ : UnlockOutcome).finalOutput ∧
      minRelayFee ≤ (⟨3500, 5000, 0⟩ : UnlockOutcome).totalInput -
        (⟨3500, 5000, 0⟩ : UnlockOutcome).finalOutput) ∧
     (dustLimit ≤ (⟨3500, 5000, 0⟩ : UnlockOutcome).finalOutput ∧
      minRelayFee ≤ (⟨3500, 5000, 0⟩ : UnlockOutcome).totalInput -
        (⟨3500, 5000, 0⟩ : UnlockOutcome).finalOutput) ∧
     unlockScriptM (fun _ => none) ⟨"", "", "", "", 0, "", "", 0, false⟩ [] [] ""
       ⟨true, [], true, true, true, true, none, true, none⟩ [] =
       (.error "Wallet not connected", [], false)) :=
  unlock_dust_and_fee_checks 5000 [] 0 [] ⟨3500, 5000, 0⟩ ⟨3500, 5000, 0⟩
    (fun _ => none) ⟨"", "", "", "", 0, "", "", 0, false⟩ [] [] ""
    ⟨true, [], true, true, true, true, none, true, none⟩ [] "Wallet not connected"
    rfl rfl rfl

/-- C8: registry side effects happen only after a successful broadcast.
For the funding flow: either the call fails and the registry is unchanged,
or it succeeds, the broadcast returned a transaction id, and the registry
is the old one with exactly one record appended.  For the unlock flow:
either the call fails and the registry is unchanged, or it succeeds, the
broadcast returned a transaction id, and the registry is exactly the old
one with the record's address marked spent. -/
theorem registry_untouched_until_broadcast (opTable : List Char → Option Nat)
    (deriveAddr : List Nat → Option String) (scriptCode : List Char) (amount : Nat)
    (walletAddress : String) (now : Nat) (fenv : FundEnv)
    (deriveAddr2 : List Nat → Option String) (record : TrackedScript)
    (scriptUtxos : List Utxo) (witnessItems : List (List Char)) (uwallet : String)
    (uenv : UnlockEnv) (reg ureg : List TrackedScript) :
    (∀ res reg2,
      createScriptTransactionM opTable deriveAddr scriptCode amount walletAddress now fenv reg =
        (res, reg2) →
      (exceptIsOk res = false ∧ reg2 = reg) ∨
      (exceptIsOk res = true ∧ fenv.broadcast.isSome = true ∧ reg <+: reg2 ∧
        reg2.length = reg.length + 1)) ∧
    (∀ res ureg2 attempted,
      unlockScriptM deriveAddr2 record scriptUtxos witnessItems uwallet uenv ureg =
        (res, ureg2, attempted) →
      (exceptIsOk res = false ∧ ureg2 = ureg) ∨
      (exceptIsOk res = true ∧ uenv.broadcast.isSome = true ∧
        ureg2 = markScriptAsSpent record.scriptAddress ureg)) := by
  constructor
  · intro res reg2 heq
    unfold createScriptTransactionM at heq
    cases hf : fundPreBroadcast opTable deriveAddr scriptCode amount fenv with
    | error e =>
      rw [hf] at heq
      cases heq
      exact Or.inl ⟨rfl, rfl⟩
    | ok payload =>
      rw [hf] at heq
      cases hb : fenv.broadcast with
      | none =>
        rw [hb] at heq
        cases heq
        exact Or.inl ⟨rfl, rfl⟩
      | some txid =>
        rw [hb] at heq
        cases heq
        exact Or.inr ⟨rfl, rfl, ⟨_, rfl⟩, by simp [saveTrackedScript]⟩
  · intro res ureg2 attempted heq
    unfold unlockScriptM at heq
    cases hu : unlockPreBroadcast deriveAddr2 record scriptUtxos witnessItems uwallet uenv with
    | error e =>
      rw [hu] at heq
      cases heq
      exact Or.inl ⟨rfl, rfl⟩
    | ok r =>
      rw [hu] at heq
      cases hb : uenv.broadcast with
      | none =>
        rw [hb] at heq
        cases heq
        exact Or.inl ⟨rfl, rfl⟩
      | some txid =>
        rw [hb] at heq
        cases heq
        exact Or.inr ⟨rfl, rfl, rfl⟩

theorem sumVal_prefix_le (l1 l2 : List Utxo) (h : l1 <+: l2) : sumVal l1 ≤ sumVal l2 := by
  obtain ⟨t, ht⟩ := h
  rw [← ht]
  simp only [sumVal, List.map_append, List.sum_append]
  exact Nat.le_add_right _ _

theorem selectUtxos_insufficient (utxos : List Utxo) (target : Nat)
    (h : sumVal utxos < target) :
    selectUtxos utxos target = .error "Insufficient UTXOs to cover the target amount" := by
  unfold selectUtxos
  rw [if_pos]
  have hp := selectGo_isPrefix target (sortUtxos utxos) 0
  have htot := selectGo_total target (sortUtxos utxos) 0
  have hsum : sumVal (sortUtxos utxos) = sumVal utxos := by
    unfold sumVal
    exact ((sortUtxos_perm utxos).map fun u => u.value).sum_eq
  have hle := sumVal_prefix_le _ _ hp
  omega

theorem containsSubstr_insufficient (a b : Nat) :
    containsSubstr (insufficientFundsMsg a b) "Insufficient funds" = true := by
  unfold containsSubstr insufficientFundsMsg
  simp only [decide_eq_true_eq]
  exact ⟨[], (": have " ++ toString a ++ ", need " ++ toString b).toList, rfl⟩

theorem classify_insufficient (a b : Nat) :
    classifyFundError (insufficientFundsMsg a b) =
      "Insufficient funds. Make sure you have enough testnet Bitcoin plus fee." := by
  unfold classifyFundError
  rw [if_pos (containsSubstr_insufficient a b)]

/-- Counterexample to C4 as stated: on UTXOs summing to 900 and target
1000, the selector's insufficiency message is a fixed string that cites
neither the 900 available nor the 1000 required. -/
theorem selector_error_cites_no_amounts :
    selectUtxos [⟨"a", 0, 900⟩] 1000 = .error "Insufficient UTXOs to cover the target amount" ∧
    containsSubstr "Insufficient UTXOs to cover the target amount" "900" = false ∧
    containsSubstr "Insufficient UTXOs to cover the target amount" "1000" = false := by
  refine ⟨rfl, by decide, by decide⟩

/-- C4 (amended): when the UTXO total is below the target both components
fail, but only the funding builder's internal check cites the amounts: the
selector throws a fixed message with no amounts, while the funding flow's
balance check throws `Insufficient funds: have ⟨available⟩, need
⟨required⟩` — which its own catch block then rewrites to a generic
insufficiency message without the amounts before propagating. -/
theorem insufficiency_errors (utxos : List Utxo) (target amount : Nat)
    (h1 : sumVal utxos < target) (h2 : sumVal utxos < amount + estimatedFundingFee)
    (h3 : utxos ≠ []) :
    selectUtxos utxos target = .error "Insufficient UTXOs to cover the target amount" ∧
    fundSelectStage utxos amount =
      .error (insufficientFundsMsg (sumVal utxos) (amount + estimatedFundingFee)) ∧
    classifyFundError (insufficientFundsMsg (sumVal utxos) (amount + estimatedFundingFee)) =
      "Insufficient funds. Make sure you have enough testnet Bitcoin plus fee." := by
  refine ⟨selectUtxos_insufficient utxos target h1, ?_, classify_insufficient _ _⟩
  unfold fundSelectStage
  rw [if_neg h3, if_pos h2]

/-- Witness for C4 at the spec's example: UTXOs summing to 900 with target
1000; the builder's internal message cites both amounts, the selector's
message cites neither. -/
theorem insufficiency_errors_witness :
    selectUtxos [⟨"a", 0, 900⟩] 1000 = .error "Insufficient UTXOs to cover the target amount" ∧
    fundSelectStage [⟨"a", 0, 900⟩] 0 = .error "Insufficient funds: have 900, need 1000" ∧
    classifyFundError "Insufficient funds: have 900, need 1000" =
      "Insufficient funds. Make sure you have enough testnet Bitcoin plus fee." ∧
    containsSubstr "Insufficient funds: have 900, need 1000" "900" = true ∧
    containsSubstr "Insufficient funds: have 900, need 1000" "1000" = true := by
  have h := insufficiency_errors [⟨"a", 0, 900⟩] 1000 0 (by decide) (by decide) (by simp)
  have hm : insufficientFundsMsg (sumVal [(⟨"a", 0, 900⟩ : Utxo)]) (0 + estimatedFundingFee) =
      "Insufficient funds: have 900, need 1000" := by decide
  refine ⟨h.1, ?_, ?_, by decide, by decide⟩
  · have h21 := h.2.1
    rwa [hm] at h21
  · have h22 := h.2.2
    rwa [hm] at h22

end BtcScriptBuilder
